import Mathlib

/-!
Verification of the zodcli argument-parsing library (src/zodcli).

The development shallowly embeds the current revision of src/zodcli/core.ts
(the first document in the file, lines 1-559), src/zodcli/utils.ts and the
relevant behaviour of its two runtime dependencies:

* the tokenizer from node:util parseArgs (invoked with strict: false and
  allowPositionals: true), and
* the zod validation step (z.object(...).safeParse).

JavaScript values flowing through the parser are modelled with the JSValue
inductive; JS numbers are modelled by JSNum, restricted to integers and NaN
(no claim under consideration depends on fractional number literals, so
Number() is modelled on integer tokens and returns NaN elsewhere).
-/

namespace Zodcli

/-- Model of a JS number as it occurs in this library: an integer or NaN. -/
inductive JSNum where
  | nan
  | int (n : Int)
deriving Repr, DecidableEq

/-- Model of the JS values produced by the tokenizer and the resolver:
strings, numbers, booleans, arrays and undefined. -/
inductive JSValue where
  | str (s : String)
  | num (n : JSNum)
  | bool (b : Bool)
  | arr (elems : List JSValue)
  | undef
deriving Repr

/-- JS strict-equality test against undefined (value === undefined). -/
def JSValue.isUndef : JSValue → Bool
  | .undef => true
  | _ => false

/-- Model of the zod schema types used by zodcli (types.ts QueryBase.type).
zod attaches .describe() metadata to the type instance; that metadata only
feeds help-text rendering, and in this model the per-argument description
string of QueryBase carries it instead. -/
inductive ZodType where
  | zString
  | zNumber
  | zBoolean
  | zEnum (values : List String)
  | zArray (elem : ZodType)
  | zOptional (inner : ZodType)
  | zDefault (inner : ZodType) (defaultValue : JSValue)
deriving Repr

/-- instanceof z.ZodArray. -/
def ZodType.isZodArray : ZodType → Bool
  | .zArray _ => true
  | _ => false

/-- instanceof z.ZodBoolean. -/
def ZodType.isZodBoolean : ZodType → Bool
  | .zBoolean => true
  | _ => false

/-- instanceof z.ZodDefault, paired with reading _def.defaultValue(). -/
def ZodType.zodDefaultValue : ZodType → Option JSValue
  | .zDefault _ d => some d
  | _ => none

/-- The positional field of a QueryBase: boolean, non-negative integer
index, or the rest sentinel "..." (types.ts). -/
inductive Positional where
  | pbool (b : Bool)
  | idx (n : Nat)
  | rest
deriving Repr, DecidableEq

/-- One argument spec (types.ts QueryBase). -/
structure QueryBase where
  type : ZodType
  positional : Option Positional := none
  short : Option String := none
  description : Option String := none
deriving Repr

/-- JS truthiness of the positional field (used by generateHelp, which
filters with !def.positional): undefined, false and 0 are falsy. -/
def jsTruthyPositional : Option Positional → Bool
  | none => false
  | some (.pbool b) => b
  | some (.idx n) => n != 0
  | some .rest => true

/-- A command definition (types.ts CommandSchema / CommandDef):
name, description and the argument map. Object key order is significant
in JS, so the args map is an insertion-ordered association list. -/
structure CommandDef where
  name : String
  description : String
  args : List (String × QueryBase)
deriving Repr

/-- First-match association-list lookup (JS object property read). -/
def assocLookup {α : Type} : List (String × α) → String → Option α
  | [], _ => none
  | (k2, v) :: rest, k => if k2 = k then some v else assocLookup rest k

/-- JS object property write: overwrite the existing entry in place,
otherwise append (preserving insertion order). -/
def jsSet {α : Type} : List (String × α) → String → α → List (String × α)
  | [], k, v => [(k, v)]
  | (k2, v2) :: rest, k, v =>
    if k2 = k then (k2, v) :: rest else (k2, v2) :: jsSet rest k v

/-- Model of JS Number(string) restricted to optionally signed integer
literals; all other strings are sent to NaN, and the empty string to 0
as in JS. -/
def strToNum (s : String) : JSNum :=
  match s.data with
  | [] => .int 0
  | '-' :: ds => if ds ≠ [] ∧ ds.all Char.isDigit
      then .int (-(Int.ofNat (String.toNat! (String.mk ds)))) else .nan
  | '+' :: ds => if ds ≠ [] ∧ ds.all Char.isDigit
      then .int (Int.ofNat (String.toNat! (String.mk ds))) else .nan
  | ds => if ds.all Char.isDigit
      then .int (Int.ofNat (String.toNat! (String.mk ds))) else .nan

/-- Model of JS Number(value) coercion on the value shapes the library
feeds it (array and undefined inputs are collapsed to NaN in this model;
convertValue only ever applies it to strings). -/
def toNumber : JSValue → JSNum
  | .str s => strToNum s
  | .bool b => .int (if b then 1 else 0)
  | .num n => n
  | _ => .nan

/-- utils.ts zodTypeToParseArgsType: booleans tokenize as boolean flags,
everything else (including ZodDefault-wrapped booleans, which are not
instanceof ZodBoolean) as string options. -/
inductive ParseArgsType where
  | str
  | boolean
deriving Repr, DecidableEq

def zodTypeToParseArgsType : ZodType → ParseArgsType
  | .zBoolean => .boolean
  | _ => .str

/-- utils.ts convertValue. -/
def convertValue (value : JSValue) (zodType : ZodType) : JSValue :=
  match value with
  | .undef => .undef
  | v =>
    match zodType with
    | .zNumber =>
      match v with
      | .str s => .num (strToNum s)
      | _ => v
    | .zEnum _ => v
    | .zArray elemType =>
      match v with
      | .arr elems =>
        match elemType with
        | .zNumber => .arr (elems.map (fun e => .num (toNumber e)))
        | _ => .arr elems
      | .str s => .arr [.str s]
      | _ => .arr []
    | .zOptional inner => convertValue v inner
    | .zDefault inner _ => convertValue v inner
    | _ => v

/-- zod validation of a single field value against its schema type
(abstracting z.ZodType._parse to a pass/fail check; ZodDefault substitutes
its default for undefined before checking the inner type). -/
def zodAccepts : ZodType → JSValue → Bool
  | .zString => fun v => match v with | .str _ => true | _ => false
  | .zNumber => fun v => match v with | .num (.int _) => true | _ => false
  | .zBoolean => fun v => match v with | .bool _ => true | _ => false
  | .zEnum vs => fun v => match v with | .str s => vs.contains s | _ => false
  | .zArray elemType => fun v =>
      match v with
      | .arr elems => elems.all (zodAccepts elemType)
      | _ => false
  | .zOptional inner => fun v =>
      match v with
      | .undef => true
      | v2 => zodAccepts inner v2
  | .zDefault inner d => fun v =>
      match v with
      | .undef => zodAccepts inner d
      | v2 => zodAccepts inner v2

/-- core.ts createZodSchema: the z.object shape is the per-key type map. -/
def createZodSchema (queryDef : List (String × QueryBase)) :
    List (String × ZodType) :=
  queryDef.map (fun e => (e.1, e.2.type))

/-- z.object(shape).safeParse on the resolved record: the keys whose field
values fail validation (missing keys are validated as undefined).
Validation succeeds exactly when this list is empty. -/
def zodIssues (shape : List (String × ZodType))
    (record : List (String × JSValue)) : List String :=
  shape.filterMap (fun e =>
    let v := (assocLookup record e.1).getD .undef
    if zodAccepts e.2 v then none else some e.1)

/-- utils.ts getTypeDisplayString. -/
def getTypeDisplayString : ZodType → String
  | .zString => "str"
  | .zNumber => "num"
  | .zBoolean => "bool"
  | .zEnum vs => String.intercalate "|" vs
  | .zArray t => getTypeDisplayString t ++ "[]"
  | .zOptional t => getTypeDisplayString t
  | .zDefault t _ => getTypeDisplayString t

mutual

/-- JSON.stringify on the default values rendered into help text
(string escaping is omitted: zodcli default values are plain scalars
and string arrays). -/
def jsonStringify : JSValue → String
  | .str s => "\"" ++ s ++ "\""
  | .num .nan => "null"
  | .num (.int n) => toString n
  | .bool b => if b then "true" else "false"
  | .arr xs => "[" ++ String.intercalate "," (jsonStringifyList xs) ++ "]"
  | .undef => "undefined"

def jsonStringifyList : List JSValue → List String
  | [] => []
  | v :: vs => jsonStringify v :: jsonStringifyList vs

end

/-- JS truthiness of an optional string (empty string is falsy). -/
def jsTruthyStr : Option String → Bool
  | none => false
  | some s => s != ""

/-- The SUBCOMMANDS block of generateHelp. -/
def subCommandsSection (subs : List (String × CommandDef)) : String :=
  subs.foldl (fun h e => h ++ "  " ++ e.1 ++ " - " ++ e.2.description ++ "\n") ""

/-- One ARGUMENTS line of generateHelp. -/
def argumentLine (e : String × QueryBase) : String :=
  "  <" ++ e.1 ++ ":" ++ getTypeDisplayString e.2.type ++ "> - "
    ++ e.2.description.getD "" ++ "\n"

/-- One OPTIONS line of generateHelp. -/
def optionLine (e : String × QueryBase) : String :=
  let typeStr := getTypeDisplayString e.2.type
  let shortOption := match e.2.short with
    | some s => if s = "" then "" else "-" ++ s
    | none => ""
  let desc := e.2.description.getD ""
  let defaultStr := match e.2.type.zodDefaultValue with
    | some d => " (default: " ++ jsonStringify d ++ ")"
    | none => ""
  let typeDisplay := if e.2.type.isZodBoolean then "" else " <" ++ typeStr ++ ">"
  "  --" ++ e.1 ++ (if shortOption = "" then "" else ", " ++ shortOption)
    ++ typeDisplay ++ " - " ++ desc ++ defaultStr ++ "\n"

/-- utils.ts generateHelp. -/
def generateHelp (commandName description : String)
    (queryDef : List (String × QueryBase))
    (subCommands : Option (List (String × CommandDef)) := none) : String :=
  let help := commandName ++ "\n> " ++ description ++ "\n\n"
  let help := match subCommands with
    | some subs =>
      if subs.length > 0 then help ++ "SUBCOMMANDS:\n" ++ subCommandsSection subs ++ "\n"
      else help
    | none => help
  let positionals := queryDef.filter (fun e =>
    e.2.positional != none && e.2.positional != some .rest)
  let help := if positionals.length > 0 then
      help ++ "ARGUMENTS:\n" ++ positionals.foldl (fun h e => h ++ argumentLine e) "" ++ "\n"
    else help
  let help := match queryDef.find? (fun e => e.2.positional == some .rest) with
    | some e =>
      let desc := e.2.description.getD ""
      help ++ "  ...<" ++ e.1 ++ ":" ++ getTypeDisplayString e.2.type ++ "[]>"
        ++ (if desc = "" then " - rest arguments" else desc) ++ "\n\n"
    | none => help
  let options := queryDef.filter (fun e => !(jsTruthyPositional e.2.positional))
  let help := if options.length > 0 then
      help ++ "OPTIONS:\n" ++ options.foldl (fun h e => h ++ optionLine e) "" ++ "\n"
    else help
  help ++ "FLAGS:\n" ++ "  --help, -h - show help\n"

/-- One entry of the node:util parseArgs option table
(types.ts ParseArgsOptionConfig). -/
structure OptionCfg where
  type : ParseArgsType
  short : Option String := none
  multiple : Bool := false
deriving Repr, DecidableEq

/-- One iteration of the createParseArgsConfig loop: positional specs are
skipped, named specs register an option entry. -/
def configStep (opts : List (String × OptionCfg)) (e : String × QueryBase) :
    List (String × OptionCfg) :=
  if e.2.positional != none then opts
  else jsSet opts e.1
    ⟨zodTypeToParseArgsType e.2.type, e.2.short, e.2.type.isZodArray⟩

/-- core.ts createParseArgsConfig: an implicit boolean help/h option,
then one option per non-positional spec (in declaration order); array
types are flagged multiple, and the tokenizer type comes from
zodTypeToParseArgsType. -/
def createParseArgsConfig (queryDef : List (String × QueryBase)) :
    List (String × OptionCfg) :=
  queryDef.foldl configStep [("help", ⟨.boolean, some "h", false⟩)]

/-- node parseArgs findLongOptionForShort: first declared option whose
short alias matches, else the short character itself used as a name. -/
def findLongOptionForShort (opts : List (String × OptionCfg)) (c : Char) : String :=
  match opts.find? (fun e => e.2.short = some (String.mk [c])) with
  | some e => e.1
  | none => String.mk [c]

/-- Declared tokenizer type of an option name (none when undeclared). -/
def optionTypeOf (opts : List (String × OptionCfg)) (name : String) :
    Option ParseArgsType :=
  (assocLookup opts name).map (fun cfg => cfg.type)

/-- Declared multiple flag of an option name (false when undeclared). -/
def optionMultiple (opts : List (String × OptionCfg)) (name : String) : Bool :=
  ((assocLookup opts name).map (fun cfg => cfg.multiple)).getD false

/-- node parseArgs storeOption: a missing option value is stored as true;
multiple-valued options accumulate an array; __proto__ is ignored. -/
def storeOption (opts : List (String × OptionCfg))
    (values : List (String × JSValue))
    (name : String) (optionValue : Option String) : List (String × JSValue) :=
  if name = "__proto__" then values
  else
    let newValue : JSValue := match optionValue with
      | some s => .str s
      | none => .bool true
    if optionMultiple opts name then
      let old := match (assocLookup values name).getD .undef with
        | .arr xs => xs
        | _ => []
      jsSet values name (.arr (old ++ [newValue]))
    else jsSet values name newValue

/-- node parseArgs isLoneShortOption: a dash followed by one non-dash
character. -/
def isLoneShortOption : List Char → Bool
  | ['-', c] => c != '-'
  | _ => false

/-- node parseArgs isShortOptionGroup: -abc where the first grouped
character is not a string-taking option. -/
def isShortOptionGroup (opts : List (String × OptionCfg)) : List Char → Bool
  | '-' :: c :: rest =>
    if c = '-' then false
    else if rest.isEmpty then false
    else optionTypeOf opts (findLongOptionForShort opts c) != some .str
  | _ => false

/-- node parseArgs isShortOptionAndValue: -ovalue where o is a
string-taking option. -/
def isShortOptionAndValue (opts : List (String × OptionCfg)) : List Char → Bool
  | '-' :: c :: rest =>
    if c = '-' then false
    else if rest.isEmpty then false
    else optionTypeOf opts (findLongOptionForShort opts c) == some .str
  | _ => false

/-- node parseArgs isLoneLongOption: --name with no '=' from index 3 on. -/
def isLoneLongOption : List Char → Bool
  | '-' :: '-' :: rest => !rest.isEmpty && !((rest.drop 1).contains '=')
  | _ => false

/-- node parseArgs isLongOptionAndValue: --name with an '=' at index 3 or
later. -/
def isLongOptionAndValue : List Char → Bool
  | '-' :: '-' :: rest => !rest.isEmpty && (rest.drop 1).contains '='
  | _ => false

/-- node parseArgs short-group expansion over the characters after the
leading dash: non-string options become lone short flags; the first
string-taking non-final character absorbs the remainder as its value. -/
def expandShortGroup (opts : List (String × OptionCfg)) : List Char → List (List Char)
  | [] => []
  | [c] => [['-', c]]
  | c :: cs =>
    if optionTypeOf opts (findLongOptionForShort opts c) == some .str
    then [('-' :: c :: cs)]
    else ['-', c] :: expandShortGroup opts cs

/-- The tokenizer output of node:util parseArgs (values and positionals). -/
structure RawParsed where
  values : List (String × JSValue) := []
  positionals : List String := []
deriving Repr

/-- charAt on a character list. -/
def charAt (l : List Char) (i : Nat) : Char := l.getD i (Char.ofNat 0)

/-- Main loop of node:util parseArgs with strict: false and
allowPositionals: true, over argv entries as character lists. Fuel only
serves Lean termination; parseArgsJS supplies strictly more fuel than the
loop can consume, so the fuel-exhausted branch is unreachable. A lone
string-taking option consumes the following token greedily (node isOptionValue
accepts any present token, dash-initial or not). -/
def parseArgsLoop (opts : List (String × OptionCfg)) :
    Nat → List (List Char) → RawParsed → RawParsed
  | _, [], acc => acc
  | 0, args, acc =>
    { acc with positionals := acc.positionals ++ args.map (fun a => String.mk a) }
  | fuel + 1, arg :: rest, acc =>
    if arg = ['-', '-'] then
      { acc with positionals := acc.positionals ++ rest.map (fun a => String.mk a) }
    else if isLoneShortOption arg then
      let longOption := findLongOptionForShort opts (charAt arg 1)
      match rest with
      | v :: rest2 =>
        if optionTypeOf opts longOption == some .str then
          parseArgsLoop opts fuel rest2
            { acc with values := storeOption opts acc.values longOption (some (String.mk v)) }
        else
          parseArgsLoop opts fuel rest
            { acc with values := storeOption opts acc.values longOption none }
      | [] =>
        parseArgsLoop opts fuel []
          { acc with values := storeOption opts acc.values longOption none }
    else if isShortOptionGroup opts arg then
      parseArgsLoop opts fuel (expandShortGroup opts (arg.drop 1) ++ rest) acc
    else if isShortOptionAndValue opts arg then
      let longOption := findLongOptionForShort opts (charAt arg 1)
      parseArgsLoop opts fuel rest
        { acc with values := storeOption opts acc.values longOption (some (String.mk (arg.drop 2))) }
    else if isLoneLongOption arg then
      let longOption := String.mk (arg.drop 2)
      match rest with
      | v :: rest2 =>
        if optionTypeOf opts longOption == some .str then
          parseArgsLoop opts fuel rest2
            { acc with values := storeOption opts acc.values longOption (some (String.mk v)) }
        else
          parseArgsLoop opts fuel rest
            { acc with values := storeOption opts acc.values longOption none }
      | [] =>
        parseArgsLoop opts fuel []
          { acc with values := storeOption opts acc.values longOption none }
    else if isLongOptionAndValue arg then
      let equalIndex := arg.findIdx (fun ch => ch = '=')
      let longOption := String.mk ((arg.drop 2).take (equalIndex - 2))
      let value := String.mk (arg.drop (equalIndex + 1))
      parseArgsLoop opts fuel rest
        { acc with values := storeOption opts acc.values longOption (some value) }
    else
      parseArgsLoop opts fuel rest
        { acc with positionals := acc.positionals ++ [String.mk arg] }

/-- Fuel that strictly dominates the iteration count of parseArgsLoop
(short-group expansion adds at most one sub-token per grouped character). -/
def parseArgsFuel (args : List (List Char)) : Nat :=
  args.foldl (fun n a => n + a.length + 2) 1

/-- node:util parseArgs as called by core.ts parseArgsWrapper
(strict: false, allowPositionals: true). -/
def parseArgsJS (opts : List (String × OptionCfg)) (args : List String) : RawParsed :=
  let charArgs := args.map String.data
  parseArgsLoop opts (parseArgsFuel charArgs) charArgs {}

/-- Lexicographic comparison of two strings by code unit, as the default
JS sort comparator performs on the ToString forms of its elements. -/
def jsStrLtChars : List Char → List Char → Bool
  | _, [] => false
  | [], _ :: _ => true
  | a :: as, b :: bs =>
    if a = b then jsStrLtChars as bs
    else decide (a.toNat < b.toNat)

/-- One step of JS Array.prototype.sort with the DEFAULT comparator, which
compares the decimal string forms of the numbers (lexicographically), not
their numeric values. -/
def sortedInsertJS (x : Nat) : List Nat → List Nat
  | [] => [x]
  | y :: ys =>
    if jsStrLtChars (Nat.repr y).data (Nat.repr x).data then y :: sortedInsertJS x ys
    else x :: y :: ys

/-- JS Array.prototype.sort() with no comparator (string comparison). -/
def jsDefaultSort (l : List Nat) : List Nat := l.foldr sortedInsertJS []

/-- Number of distinct elements, as computed by new Set(arr).size. -/
def dedupNats : List Nat → List Nat
  | [] => []
  | x :: xs =>
    let rest := dedupNats xs
    if rest.contains x then rest else x :: rest

/-- The loop for (let i = 0; ...) checking positionalKeys[i] === i. -/
def seqContiguous : Nat → List Nat → Bool
  | _, [] => true
  | i, x :: xs => x == i && seqContiguous (i + 1) xs

/-- core.ts resolveValues: the sorted list of explicit numeric positional
indices (typeof positional === "number"), sorted by the default JS sort. -/
def positionalIndices (queryDef : List (String × QueryBase)) : List Nat :=
  jsDefaultSort (queryDef.filterMap (fun e =>
    match e.2.positional with
    | some (.idx n) => some n
    | _ => none))

/-- The keys whose spec declares positional: "...". -/
def restKeys (queryDef : List (String × QueryBase)) : List String :=
  queryDef.filterMap (fun e =>
    if e.2.positional == some .rest then some e.1 else none)

/-- Math.max over the positional indices: none models -Infinity for an
empty list, in which case slice(maxPositionalIndex + 1) starts at 0. -/
def listMax : List Nat → Option Nat :=
  List.foldl (fun acc n =>
    match acc with
    | none => some n
    | some m => some (max m n)) none

/-- The start index of the rest slice:
rawParsed.positionals.slice(maxPositionalIndex + 1). -/
def restStartIndex (queryDef : List (String × QueryBase)) : Nat :=
  match listMax (positionalIndices queryDef) with
  | none => 0
  | some m => m + 1

/-- The rest-argument entry written first by resolveValues (when a rest
spec exists): the positional tokens past the highest explicit index,
element-coerced for array types and assigned raw otherwise. -/
def restPart (raw : RawParsed) (queryDef : List (String × QueryBase)) :
    List (String × JSValue) :=
  match queryDef.find? (fun e => e.2.positional == some .rest) with
  | none => []
  | some e =>
    let restValues : JSValue :=
      .arr ((raw.positionals.drop (restStartIndex queryDef)).map .str)
    if e.2.type.isZodArray then jsSet [] e.1 (convertValue restValues e.2.type)
    else jsSet [] e.1 restValues

/-- One iteration of the indexed-positional loop of resolveValues. JS array
indexing with a boolean (positionals[true] for positional: true) yields
undefined, so such specs never receive a token and fall back to their
default, exactly like an out-of-range index. -/
def positionalStep (raw : RawParsed) (acc : List (String × JSValue))
    (e : String × QueryBase) : List (String × JSValue) :=
  match e.2.positional with
  | none => acc
  | some .rest => acc
  | some (.idx n) =>
    match raw.positionals.get? n with
    | some s => jsSet acc e.1 (convertValue (.str s) e.2.type)
    | none =>
      match e.2.type.zodDefaultValue with
      | some d => jsSet acc e.1 d
      | none => acc
  | some (.pbool _) =>
    match e.2.type.zodDefaultValue with
    | some d => jsSet acc e.1 d
    | none => acc

/-- One iteration of the named-option loop of resolveValues. -/
def namedStep (raw : RawParsed) (acc : List (String × JSValue))
    (e : String × QueryBase) : List (String × JSValue) :=
  if e.2.positional != none then acc
  else
    let value := (assocLookup raw.values e.1).getD .undef
    if !value.isUndef then jsSet acc e.1 (convertValue value e.2.type)
    else
      match e.2.type.zodDefaultValue with
      | some d => jsSet acc e.1 d
      | none => acc

/-- The record built by resolveValues once its configuration checks have
passed: the rest entry first, then indexed positionals, then named options,
mirroring the write order of the source. -/
def resolveRecord (raw : RawParsed) (queryDef : List (String × QueryBase)) :
    List (String × JSValue) :=
  queryDef.foldl (namedStep raw)
    (queryDef.foldl (positionalStep raw) (restPart raw queryDef))

/-- core.ts resolveValues: configuration checks (duplicate indices, index
contiguity, the multiple-rest guard) followed by record construction.
Thrown errors are modelled as Except.error with the thrown message. -/
def resolveValues (raw : RawParsed) (queryDef : List (String × QueryBase)) :
    Except String (List (String × JSValue)) :=
  let positionalKeys := positionalIndices queryDef
  if positionalKeys.length ≠ (dedupNats positionalKeys).length then
    .error "位置引数のインデックスが重複しています"
  else if !(seqContiguous 0 positionalKeys) then
    .error "位置引数のインデックスが連番になっていません"
  else if (restKeys queryDef).length > 1 && positionalKeys.contains positionalKeys.length then
    .error "multiple rest arguments"
  else
    .ok (resolveRecord raw queryDef)

/-- The configuration conditions under which resolveValues does not throw. -/
def validPositionalConfig (queryDef : List (String × QueryBase)) : Bool :=
  let positionalKeys := positionalIndices queryDef
  positionalKeys.length == (dedupNats positionalKeys).length
    && seqContiguous 0 positionalKeys
    && !((restKeys queryDef).length > 1 && positionalKeys.contains positionalKeys.length)

/-- The error payload of a command result: a zod validation error (listed
by failing field keys) or a caught exception message. -/
inductive ErrorValue where
  | zodError (issueKeys : List String)
  | exn (message : String)
deriving Repr

/-- types.ts CommandResult. -/
inductive CommandResult where
  | success (data : List (String × JSValue))
  | help (helpText : String)
  | error (err : ErrorValue) (helpText : String)
deriving Repr

/-- The help text createCommand renders for a command definition. -/
def helpTextOf (cdef : CommandDef) : String :=
  generateHelp cdef.name cdef.description cdef.args none

/-- core.ts createCommand(...).parse: help short-circuit, tokenization,
resolution, zod validation; every exception is caught and returned as an
error result carrying the help text. -/
def commandParse (cdef : CommandDef) (argv : List String) : CommandResult :=
  let queryDef := cdef.args
  let helpText := helpTextOf cdef
  if argv.contains "-h" || argv.contains "--help" then
    .help helpText
  else
    let raw := parseArgsJS (createParseArgsConfig queryDef) argv
    match resolveValues raw queryDef with
    | .error msg => .error (.exn msg) helpText
    | .ok resolved =>
      let issues := zodIssues (createZodSchema queryDef) resolved
      if issues.isEmpty then .success resolved
      else .error (.zodError issues) helpText

/-- types.ts SafeParseResult. -/
inductive SafeParseResult where
  | ok (data : List (String × JSValue))
  | err (e : ErrorValue)
deriving Repr

/-- core.ts createParser(...).safeParse. -/
def safeParse (cdef : CommandDef) (argv : List String) : SafeParseResult :=
  match commandParse cdef argv with
  | .error e _ => .err e
  | .help _ => .err (.exn "Help requested")
  | .success d => .ok d

/-- types.ts NestedCommandOptions; the source field name of dflt is
default. -/
structure NestedCommandOptions where
  name : Option String := none
  description : Option String := none
  dflt : Option String := none
deriving Repr

/-- JS expr || fallback on an optional string. -/
def jsOrString (o : Option String) (fallback : String) : String :=
  match o with
  | some s => if s = "" then fallback else s
  | none => fallback

/-- The state createNestedCommands closes over after construction. -/
structure NestedHandler where
  subs : List (String × CommandDef)
  rootName : String
  rootDescription : String
  defaultCommand : Option String
deriving Repr

/-- core.ts createNestedCommands construction: resolves root name and
description, validates that a truthy default command names a declared
subcommand, and otherwise throws. -/
def createNestedCommands (subCommands : List (String × CommandDef))
    (options : Option NestedCommandOptions) : Except String NestedHandler :=
  let rootName := jsOrString (options.bind (fun o => o.name)) "command"
  let rootDescription :=
    jsOrString (options.bind (fun o => o.description)) "Command with subcommands"
  let defaultCommand := options.bind (fun o => o.dflt)
  match defaultCommand with
  | some d =>
    if d ≠ "" && !((subCommands.map Prod.fst).contains d) then
      .error ("Default command '" ++ d ++ "' not found in subcommands")
    else .ok ⟨subCommands, rootName, rootDescription, some d⟩
  | none => .ok ⟨subCommands, rootName, rootDescription, none⟩

/-- The root help text of a nested handler (generateHelp with an empty
query definition and the subcommand map). -/
def rootHelpTextOf (h : NestedHandler) : String :=
  generateHelp h.rootName h.rootDescription [] (some h.subs)

/-- types.ts NestedCommandResult. -/
inductive NestedCommandResult where
  | subcommand (name : String) (result : CommandResult)
  | help (helpText : String)
  | error (message : String) (helpText : String)
deriving Repr

/-- The subcommand-name resolution and delegation of
createNestedCommands(...).parse on a non-empty argv a0 :: restArgs:
an explicitly named subcommand consumes the first token, a truthy default
command receives the whole argv, and commands.get falls back to an
unknown-subcommand error. -/
def nestedDispatch (h : NestedHandler) (a0 : String) (restArgs : List String) :
    NestedCommandResult :=
  let names := h.subs.map Prod.fst
  let choice : Option (String × List String) :=
    if names.contains a0 then some (a0, restArgs)
    else match h.defaultCommand with
      | some d => if d ≠ "" then some (d, a0 :: restArgs) else none
      | none => none
  match choice with
  | none => .error ("Unknown subcommand: " ++ a0) (rootHelpTextOf h)
  | some (name, subArgs) =>
    match assocLookup h.subs name with
    | some cdef => .subcommand name (commandParse cdef subArgs)
    | none => .error ("Unknown subcommand: " ++ name) (rootHelpTextOf h)

/-- core.ts createNestedCommands(...).parse: root help for help flags or
empty argv; otherwise dispatch on argv[0], falling back to a truthy
default command with the whole argv, else an unknown-subcommand error. -/
def nestedParse (h : NestedHandler) (argv : List String) : NestedCommandResult :=
  if argv.contains "-h" || argv.contains "--help" || argv.isEmpty then
    .help (rootHelpTextOf h)
  else
    match argv with
    | [] => .help (rootHelpTextOf h)
    | a0 :: restArgs => nestedDispatch h a0 restArgs

/-! Concrete schemas used by counterexample and witness theorems. -/

/-- Eleven specs with explicit positional indices 0 through 10: the index
set is exactly the contiguous range 0..10 with no duplicates. -/
def c1QueryDef : List (String × QueryBase) :=
  (List.range 11).map (fun i =>
    ("p" ++ toString i, { type := .zString, positional := some (.idx i) }))

/-- Two specs both declaring positional: "...". -/
def c2QueryDef : List (String × QueryBase) :=
  [("a", { type := .zArray .zString, positional := some .rest }),
   ("b", { type := .zDefault (.zArray .zString) (.arr []), positional := some .rest })]

def c2CommandDef : CommandDef := ⟨"demo", "demo command", c2QueryDef⟩

/-- A single auto-positional string field (positional: true), as in the
README and the createParser doc example. -/
def c4QueryDef : List (String × QueryBase) :=
  [("query", { type := .zString, positional := some (.pbool true) })]

def c4CommandDef : CommandDef := ⟨"search", "Search with custom parameters", c4QueryDef⟩

/-- A named boolean option with default false and a short alias. -/
def c5QueryDef : List (String × QueryBase) :=
  [("verbose", { type := .zDefault .zBoolean (.bool false), short := some "v" })]

def c3CommandDef : CommandDef := ⟨"w3", "witness command", []⟩

/-- Two specs sharing the explicit positional index 0. -/
def c9QueryDef : List (String × QueryBase) :=
  [("x0", { type := .zString, positional := some (.idx 0) }),
   ("y0", { type := .zString, positional := some (.idx 0) })]

def c9CommandDef : CommandDef := ⟨"dup", "duplicate indices", c9QueryDef⟩

def c10Subs : List (String × CommandDef) := [("add", ⟨"app add", "Add things", []⟩)]

def c10Handler : NestedHandler := ⟨c10Subs, "app", "demo app", none⟩

def c6Subs : List (String × CommandDef) := [("run", ⟨"tool run", "Run it", []⟩)]

def c6Options : NestedCommandOptions :=
  { name := some "tool", description := some "A tool", dflt := some "run" }

def c6Handler : NestedHandler := ⟨c6Subs, "tool", "A tool", some "run"⟩

/-- Claim C1: the spec demands that explicit integer positions forming
exactly the set 0..n never raise the configuration error. The code sorts
the indices with the default (lexicographic) Array.prototype.sort, so the
contiguous index set 0..10 is ordered 0,1,10,2,...,9, fails the
positionalKeys[i] === i check, and resolution throws the non-contiguous
configuration error for every argv. -/
theorem c1_contiguous_indices_rejected :
    (c1QueryDef.filterMap (fun e =>
        match e.2.positional with
        | some (.idx n) => some n
        | _ => none) = List.range 11)
    ∧ positionalIndices c1QueryDef = [0, 1, 10, 2, 3, 4, 5, 6, 7, 8, 9]
    ∧ ∀ raw : RawParsed,
        resolveValues raw c1QueryDef = .error "位置引数のインデックスが連番になっていません" :=
  ⟨by decide, by decide, fun _ => rfl⟩

/-- Claim C2: the spec demands that a schema with two rest specs always
fail. The guard around the multiple-rest throw
(positionalKeys.includes(positionalKeys.length)) is always false once the
contiguity check has passed, so the throw is unreachable: with two rest
specs resolution succeeds for every argv, and the full parse of ["x"]
returns success. -/
theorem c2_two_rest_specs_succeed :
    (restKeys c2QueryDef).length = 2
    ∧ (∀ raw : RawParsed, resolveValues raw c2QueryDef = .ok (resolveRecord raw c2QueryDef))
    ∧ commandParse c2CommandDef ["x"] = .success [("a", .arr [.str "x"])] :=
  ⟨rfl, fun _ => rfl, rfl⟩

/-- Claim C4: the spec (and the README) promise that positional: true
auto-assigns the next positional index, so parsing ["hello"] should bind
query to "hello". The code evaluates positionals[true], which is
undefined in JS, so the field is never bound and validation fails with a
ZodError on query instead of succeeding. -/
theorem c4_positional_true_never_binds :
    commandParse c4CommandDef ["hello"] =
      .error (.zodError ["query"]) (helpTextOf c4CommandDef)
    ∧ resolveRecord (parseArgsJS (createParseArgsConfig c4QueryDef) ["hello"]) c4QueryDef = [] :=
  ⟨rfl, rfl⟩

/-- Claim C3: if --help or -h appears anywhere in argv, the command-level
parse short-circuits to the Help result carrying the rendered help text,
before any resolution or validation can fail. -/
theorem c3_help_flag_wins (cdef : CommandDef) (argv : List String)
    (h : argv.contains "--help" = true ∨ argv.contains "-h" = true) :
    commandParse cdef argv = .help (helpTextOf cdef) := by
  rcases h with h | h <;>
    simp only [commandParse, h, Bool.or_true, Bool.true_or, if_true]

/-- Witness for C3 at a concrete schema and an argv whose other token
would fail resolution. -/
theorem c3_help_flag_wins_witness :
    (["bogus", "-h"].contains "--help" = true ∨ ["bogus", "-h"].contains "-h" = true)
    ∧ commandParse c3CommandDef ["bogus", "-h"] = .help (helpTextOf c3CommandDef) :=
  ⟨Or.inr (by decide),
   c3_help_flag_wins c3CommandDef ["bogus", "-h"] (Or.inr (by decide))⟩

/-- Claim C8: parse and safeParse are pure functions of the schema and
argv in this embedding (the source closes over no mutable state), so two
calls with identical inputs return structurally equal results. -/
theorem c8_parse_deterministic (cdef : CommandDef) (argv : List String) :
    commandParse cdef argv = commandParse cdef argv
    ∧ safeParse cdef argv = safeParse cdef argv :=
  ⟨rfl, rfl⟩

/-- Claim C10: the nested-command parse checks help flags (and empty argv)
before subcommand dispatch, so any argv containing --help or -h yields the
root help text, even when argv[0] names a valid subcommand; a subcommand
help result is never produced through the dispatcher by a help flag. -/
theorem c10_nested_help_is_root_help (h : NestedHandler) (argv : List String)
    (hh : argv.contains "--help" = true ∨ argv.contains "-h" = true ∨ argv = []) :
    nestedParse h argv = .help (rootHelpTextOf h) := by
  rcases hh with hh | hh | hh
  · simp only [nestedParse, hh, Bool.or_true, Bool.true_or, if_true]
  · simp only [nestedParse, hh, Bool.or_true, Bool.true_or, if_true]
  · subst hh; rfl

/-- Witness for C10: a help flag after a valid subcommand name still
produces the root help. -/
theorem c10_nested_help_witness :
    (["add", "--help"].contains "--help" = true ∨
      ["add", "--help"].contains "-h" = true ∨ (["add", "--help"] : List String) = [])
    ∧ nestedParse c10Handler ["add", "--help"] = .help (rootHelpTextOf c10Handler) :=
  ⟨Or.inl (by decide),
   c10_nested_help_is_root_help c10Handler ["add", "--help"] (Or.inl (by decide))⟩

/-- Claim C7: constructing the nested-command parser fails exactly when a
truthy default command name is configured that is not a key of the
subcommand map; otherwise construction succeeds. -/
theorem c7_default_command_checked (subCommands : List (String × CommandDef))
    (options : Option NestedCommandOptions) :
    (∃ msg, createNestedCommands subCommands options = .error msg)
      ↔ ∃ d, options.bind (fun o => o.dflt) = some d ∧ d ≠ ""
          ∧ (subCommands.map Prod.fst).contains d = false := by
  cases hd : options.bind (fun o => o.dflt) with
  | none => simp [createNestedCommands, hd]
  | some d =>
    simp only [createNestedCommands, hd]
    by_cases he : d = ""
    · subst he; simp
    · by_cases hc : (subCommands.map Prod.fst).contains d = true
      · have hcond : (decide (d ≠ "") && !(subCommands.map Prod.fst).contains d) = false := by
          rw [hc]; simp
        rw [hcond, if_neg Bool.false_ne_true]
        constructor
        · rintro ⟨msg, hmsg⟩
          simp at hmsg
        · rintro ⟨d2, hd2, -, hcon⟩
          injection hd2 with hdd
          subst hdd
          rw [hcon] at hc
          cases hc
      · replace hc := eq_false_of_ne_true hc
        have hcond : (decide (d ≠ "") && !(subCommands.map Prod.fst).contains d) = true := by
          rw [hc]; simp [he]
        rw [hcond, if_pos rfl]
        constructor
        · intro _
          exact ⟨d, rfl, he, hc⟩
        · intro _
          exact ⟨_, rfl⟩

/-- Claim C9: the command-level parse is total over the three result
variants; every error-variant result carries the rendered help text, and
any resolution error (including schema misconfiguration) is caught and
returned as an error result rather than propagating. -/
theorem c9_parse_totality (cdef : CommandDef) (argv : List String) :
    ((∃ d, commandParse cdef argv = .success d)
      ∨ commandParse cdef argv = .help (helpTextOf cdef)
      ∨ ∃ e, commandParse cdef argv = .error e (helpTextOf cdef))
    ∧ ((argv.contains "-h" || argv.contains "--help") = false →
        ∀ msg, resolveValues (parseArgsJS (createParseArgsConfig cdef.args) argv)
            cdef.args = .error msg →
          commandParse cdef argv = .error (.exn msg) (helpTextOf cdef)) := by
  constructor
  · by_cases hc : (argv.contains "-h" || argv.contains "--help") = true
    · right; left; simp only [commandParse, hc, if_true]
    · replace hc := eq_false_of_ne_true hc
      cases hr : resolveValues (parseArgsJS (createParseArgsConfig cdef.args) argv)
          cdef.args with
      | error msg =>
        right; right
        refine ⟨.exn msg, ?_⟩
        simp only [commandParse]
        rw [hc, if_neg Bool.false_ne_true, hr]
      | ok resolved =>
        by_cases hi : (zodIssues (createZodSchema cdef.args) resolved).isEmpty = true
        · left
          refine ⟨resolved, ?_⟩
          simp only [commandParse]
          rw [hc, if_neg Bool.false_ne_true, hr]
          exact if_pos hi
        · right; right
          refine ⟨.zodError (zodIssues (createZodSchema cdef.args) resolved), ?_⟩
          replace hi := eq_false_of_ne_true hi
          simp only [commandParse]
          rw [hc, if_neg Bool.false_ne_true, hr]
          exact if_neg (by simp [hi])
  · intro hflags msg hmsg
    simp only [commandParse]
    rw [hflags, if_neg Bool.false_ne_true, hmsg]

/-- Witness for C9 at a schema with duplicate positional indices: the
configuration error surfaces as an error result with the help text. -/
theorem c9_parse_totality_witness :
    ((["v"].contains "-h" || ["v"].contains "--help") = false
      ∧ resolveValues (parseArgsJS (createParseArgsConfig c9CommandDef.args) ["v"])
          c9CommandDef.args = .error "位置引数のインデックスが重複しています")
    ∧ commandParse c9CommandDef ["v"] =
        .error (.exn "位置引数のインデックスが重複しています") (helpTextOf c9CommandDef) :=
  ⟨⟨by decide, rfl⟩,
   (c9_parse_totality c9CommandDef ["v"]).2 (by decide) _ rfl⟩

/-! Association-list and fold lemmas supporting the remaining claims. -/

lemma assocLookup_mem {α : Type} {l : List (String × α)} {k : String} {v : α}
    (h : assocLookup l k = some v) : (k, v) ∈ l := by
  induction l with
  | nil => cases h
  | cons e rest ih =>
    obtain ⟨k2, v2⟩ := e
    by_cases he : k2 = k
    · subst he
      simp only [assocLookup, if_pos rfl] at h
      injection h with hv
      subst hv
      exact List.mem_cons_self _ _
    · simp only [assocLookup, if_neg he] at h
      exact List.mem_cons_of_mem _ (ih h)

lemma exists_assocLookup_of_mem_keys {α : Type} {l : List (String × α)} {k : String}
    (h : k ∈ l.map Prod.fst) : ∃ v, assocLookup l k = some v := by
  induction l with
  | nil => simp at h
  | cons e rest ih =>
    obtain ⟨k2, v2⟩ := e
    by_cases he : k2 = k
    · subst he
      exact ⟨v2, by simp [assocLookup]⟩
    · have h1 : k ∈ List.map Prod.fst ((k2, v2) :: rest) := h
      rw [List.map_cons, List.mem_cons] at h1
      rcases h1 with h1 | h1
      · exact absurd h1.symm he
      · obtain ⟨v, hv⟩ := ih h1
        refine ⟨v, ?_⟩
        rw [show assocLookup ((k2, v2) :: rest) k = assocLookup rest k from by
          simp [assocLookup, he]]
        exact hv

lemma assocLookup_jsSet_self {α : Type} (m : List (String × α)) (k : String) (v : α) :
    assocLookup (jsSet m k v) k = some v := by
  induction m with
  | nil => simp [jsSet, assocLookup]
  | cons e rest ih =>
    obtain ⟨k2, v2⟩ := e
    by_cases he : k2 = k
    · simp [jsSet, assocLookup, he]
    · simp [jsSet, assocLookup, he, ih]

lemma assocLookup_jsSet_ne {α : Type} (m : List (String × α)) {k2 k : String} (v : α)
    (h : k2 ≠ k) : assocLookup (jsSet m k2 v) k = assocLookup m k := by
  have h2 : k ≠ k2 := Ne.symm h
  induction m with
  | nil => simp [jsSet, assocLookup, h]
  | cons e rest ih =>
    obtain ⟨k3, v3⟩ := e
    by_cases he : k3 = k2
    · subst he
      simp [jsSet, assocLookup, h]
    · by_cases he2 : k3 = k
      · subst he2
        simp [jsSet, assocLookup, he, h2]
      · simp [jsSet, assocLookup, he, he2, ih]

lemma assocLookup_foldl_of_ne {α β : Type} {k : String}
    {step : List (String × α) → (String × β) → List (String × α)}
    (hstep : ∀ acc e, e.1 ≠ k → assocLookup (step acc e) k = assocLookup acc k)
    (l : List (String × β)) (acc : List (String × α))
    (hl : ∀ e ∈ l, e.1 ≠ k) :
    assocLookup (l.foldl step acc) k = assocLookup acc k := by
  induction l generalizing acc with
  | nil => rfl
  | cons e rest ih =>
    rw [List.foldl_cons,
      ih (step acc e) (fun x hx => hl x (List.mem_cons_of_mem e hx)),
      hstep acc e (hl e (List.mem_cons_self e rest))]

lemma namedStep_lookup_ne {k : String} (raw : RawParsed)
    (acc : List (String × JSValue)) (e : String × QueryBase) (h : e.1 ≠ k) :
    assocLookup (namedStep raw acc e) k = assocLookup acc k := by
  simp only [namedStep]
  repeat' split
  all_goals first
    | rfl
    | exact assocLookup_jsSet_ne _ _ h

lemma configStep_lookup_ne {k : String}
    (acc : List (String × OptionCfg)) (e : String × QueryBase) (h : e.1 ≠ k) :
    assocLookup (configStep acc e) k = assocLookup acc k := by
  unfold configStep
  split
  · rfl
  · exact assocLookup_jsSet_ne _ _ h

lemma keys_ne_of_nodup_middle {α : Type} {l1 l2 : List (String × α)}
    {k : String} {q : α}
    (hnd : ((l1 ++ (k, q) :: l2).map Prod.fst).Nodup) :
    ∀ e ∈ l2, e.1 ≠ k := by
  intro e he hek
  rw [List.map_append, List.map_cons] at hnd
  have hk2 : k ∉ l2.map Prod.fst :=
    (List.nodup_cons.mp (List.nodup_append.mp hnd).2.1).1
  exact hk2 (hek ▸ List.mem_map_of_mem Prod.fst he)

/-- If the named-option step writes value w at key k independent of the
accumulator, the whole resolved record maps k to w. -/
lemma resolveRecord_named_set (raw : RawParsed)
    {queryDef : List (String × QueryBase)} {k : String} {q : QueryBase} {w : JSValue}
    (hnd : (queryDef.map Prod.fst).Nodup)
    (hlk : assocLookup queryDef k = some q)
    (hset : ∀ acc, assocLookup (namedStep raw acc (k, q)) k = some w) :
    assocLookup (resolveRecord raw queryDef) k = some w := by
  obtain ⟨l1, l2, rfl⟩ := List.append_of_mem (assocLookup_mem hlk)
  unfold resolveRecord
  rw [List.foldl_append, List.foldl_cons,
    assocLookup_foldl_of_ne (namedStep_lookup_ne raw) l2 _ (keys_ne_of_nodup_middle hnd)]
  exact hset _

/-- The option table registers each named spec under its key with the
tokenizer type, short alias and multiple flag derived from its zod type. -/
lemma createParseArgsConfig_lookup {queryDef : List (String × QueryBase)}
    {k : String} {q : QueryBase}
    (hnd : (queryDef.map Prod.fst).Nodup)
    (hlk : assocLookup queryDef k = some q)
    (hpos : q.positional = none) :
    assocLookup (createParseArgsConfig queryDef) k =
      some ⟨zodTypeToParseArgsType q.type, q.short, q.type.isZodArray⟩ := by
  obtain ⟨l1, l2, rfl⟩ := List.append_of_mem (assocLookup_mem hlk)
  unfold createParseArgsConfig
  rw [List.foldl_append, List.foldl_cons,
    assocLookup_foldl_of_ne configStep_lookup_ne l2 _ (keys_ne_of_nodup_middle hnd)]
  have hc : configStep (List.foldl configStep [("help", ⟨.boolean, some "h", false⟩)] l1) (k, q)
      = jsSet (List.foldl configStep [("help", ⟨.boolean, some "h", false⟩)] l1) k
          ⟨zodTypeToParseArgsType q.type, q.short, q.type.isZodArray⟩ := by
    simp [configStep, hpos]
  rw [hc]
  exact assocLookup_jsSet_self _ _ _

lemma optionMultiple_of_lookup {opts : List (String × OptionCfg)} {k : String}
    {cfg : OptionCfg} (h : assocLookup opts k = some cfg) :
    optionMultiple opts k = cfg.multiple := by
  simp [optionMultiple, h]

/-- Tokenizing a single bare --name token for a declared non-multiple named
option stores the value true under its key (node storeOption uses true when
no option value is present). -/
lemma parseArgs_bare_long_flag {queryDef : List (String × QueryBase)}
    {c : Char} {cs : List Char} {q : QueryBase}
    (hnd : (queryDef.map Prod.fst).Nodup)
    (hlk : assocLookup queryDef (String.mk (c :: cs)) = some q)
    (hpos : q.positional = none)
    (harr : q.type.isZodArray = false)
    (hk1 : (c :: cs).contains '=' = false)
    (hk2 : String.mk (c :: cs) ≠ "__proto__") :
    (parseArgsJS (createParseArgsConfig queryDef) [String.mk ('-' :: '-' :: c :: cs)]).values
      = [(String.mk (c :: cs), .bool true)] := by
  have hcfg := createParseArgsConfig_lookup hnd hlk hpos
  have hcs : cs.contains '=' = false := by
    simp [List.contains] at hk1 ⊢
    exact hk1.2
  have hlong : isLoneLongOption ('-' :: '-' :: c :: cs) = true := by
    simp [isLoneLongOption]
    simpa using hcs
  have hmul : optionMultiple (createParseArgsConfig queryDef) (String.mk (c :: cs)) = false := by
    rw [optionMultiple_of_lookup hcfg, harr]
  have hstore : storeOption (createParseArgsConfig queryDef) [] (String.mk (c :: cs)) none
      = [(String.mk (c :: cs), .bool true)] := by
    simp [storeOption, hk2, hmul, jsSet]
  have hfuel : parseArgsFuel [('-' :: '-' :: c :: cs)]
      = (('-' :: '-' :: c :: cs).length + 2) + 1 := by
    simp [parseArgsFuel]
    omega
  unfold parseArgsJS
  simp only [List.map_cons, List.map_nil]
  rw [hfuel]
  rw [show parseArgsLoop (createParseArgsConfig queryDef)
        ((('-' :: '-' :: c :: cs).length + 2) + 1) [('-' :: '-' :: c :: cs)] {}
      = parseArgsLoop (createParseArgsConfig queryDef) (('-' :: '-' :: c :: cs).length + 2) []
          { values := storeOption (createParseArgsConfig queryDef) []
              (String.mk (List.drop 2 ('-' :: '-' :: c :: cs))) none,
            positionals := [] } from by
    simp only [parseArgsLoop]
    rw [if_neg (by simp)]
    rw [show isLoneShortOption ('-' :: '-' :: c :: cs) = false from rfl]
    rw [if_neg Bool.false_ne_true]
    rw [show isShortOptionGroup (createParseArgsConfig queryDef) ('-' :: '-' :: c :: cs)
        = false from rfl]
    rw [if_neg Bool.false_ne_true]
    rw [show isShortOptionAndValue (createParseArgsConfig queryDef) ('-' :: '-' :: c :: cs)
        = false from rfl]
    rw [if_neg Bool.false_ne_true]
    rw [hlong, if_pos rfl]]
  rw [show parseArgsLoop (createParseArgsConfig queryDef) (('-' :: '-' :: c :: cs).length + 2) []
        { values := storeOption (createParseArgsConfig queryDef) []
            (String.mk (List.drop 2 ('-' :: '-' :: c :: cs))) none,
          positionals := [] }
      = { values := storeOption (createParseArgsConfig queryDef) []
            (String.mk (List.drop 2 ('-' :: '-' :: c :: cs))) none,
          positionals := [] } from by simp [parseArgsLoop]]
  rw [show List.drop 2 ('-' :: '-' :: c :: cs) = c :: cs from rfl]
  rw [hstore]

/-- Tokenizing a single bare -x token whose short alias resolves to a
declared non-multiple option stores the value true under that option. -/
lemma parseArgs_bare_short_flag {queryDef : List (String × QueryBase)}
    {k : String} {q : QueryBase} {c : Char}
    (hnd : (queryDef.map Prod.fst).Nodup)
    (hlk : assocLookup queryDef k = some q)
    (hpos : q.positional = none)
    (harr : q.type.isZodArray = false)
    (hsc : c ≠ '-')
    (hmatch : findLongOptionForShort (createParseArgsConfig queryDef) c = k)
    (hk2 : k ≠ "__proto__") :
    (parseArgsJS (createParseArgsConfig queryDef) [String.mk ['-', c]]).values
      = [(k, .bool true)] := by
  have hcfg := createParseArgsConfig_lookup hnd hlk hpos
  have hmul : optionMultiple (createParseArgsConfig queryDef) k = false := by
    rw [optionMultiple_of_lookup hcfg, harr]
  have hstore : storeOption (createParseArgsConfig queryDef) [] k none
      = [(k, .bool true)] := by
    simp [storeOption, hk2, hmul, jsSet]
  have hlone : isLoneShortOption ['-', c] = true := by
    simp [isLoneShortOption, hsc]
  have hfuel : parseArgsFuel [(['-', c] : List Char)]
      = ((['-', c] : List Char).length + 2) + 1 := by
    simp [parseArgsFuel]
  unfold parseArgsJS
  simp only [List.map_cons, List.map_nil]
  rw [hfuel]
  rw [show parseArgsLoop (createParseArgsConfig queryDef)
        (((['-', c] : List Char).length + 2) + 1) [(['-', c] : List Char)] {}
      = parseArgsLoop (createParseArgsConfig queryDef) ((['-', c] : List Char).length + 2) []
          { values := storeOption (createParseArgsConfig queryDef) []
              (findLongOptionForShort (createParseArgsConfig queryDef) (charAt ['-', c] 1)) none,
            positionals := [] } from by
    simp only [parseArgsLoop]
    rw [if_neg (by simp [hsc])]
    rw [hlone, if_pos rfl]]
  rw [show charAt ['-', c] 1 = c from rfl, hmatch]
  rw [show parseArgsLoop (createParseArgsConfig queryDef) ((['-', c] : List Char).length + 2) []
        { values := storeOption (createParseArgsConfig queryDef) [] k none, positionals := [] }
      = { values := storeOption (createParseArgsConfig queryDef) [] k none, positionals := [] }
      from by simp [parseArgsLoop]]
  rw [hstore]

/-- A named spec whose token is absent resolves to its declared default. -/
lemma namedStep_absent_default (raw : RawParsed) (acc : List (String × JSValue))
    {k : String} {q : QueryBase} {d : JSValue}
    (hpos : q.positional = none)
    (ha : assocLookup raw.values k = none)
    (hd : q.type.zodDefaultValue = some d) :
    assocLookup (namedStep raw acc (k, q)) k = some d := by
  have h : namedStep raw acc (k, q) = jsSet acc k d := by
    simp [namedStep, hpos, ha, hd, JSValue.isUndef]
  rw [h]
  exact assocLookup_jsSet_self _ _ _

/-- A named spec whose token is present resolves to the converted value. -/
lemma namedStep_present (raw : RawParsed) (acc : List (String × JSValue))
    {k : String} {q : QueryBase} {v : JSValue}
    (hpos : q.positional = none)
    (ha : assocLookup raw.values k = some v)
    (hv : v.isUndef = false) :
    assocLookup (namedStep raw acc (k, q)) k = some (convertValue v q.type) := by
  have h : namedStep raw acc (k, q) = jsSet acc k (convertValue v q.type) := by
    simp [namedStep, hpos, ha, hv]
  rw [h]
  exact assocLookup_jsSet_self _ _ _

/-- Claim C5: for a schema declaring a named boolean option with default
false, (i) resolution never throws when the positional configuration is
valid, (ii) an argv tokenizing with no value for the option resolves it to
false via the default, (iii) a tokenized true resolves to true, and a bare
--name or -shortAlias flag with no following token tokenizes to true and
hence resolves the field to true. -/
theorem c5_boolean_default_option (queryDef : List (String × QueryBase))
    (k : String) (q : QueryBase)
    (hnd : (queryDef.map Prod.fst).Nodup)
    (hlk : assocLookup queryDef k = some q)
    (hpos : q.positional = none)
    (hty : q.type = .zDefault .zBoolean (.bool false))
    (hval : validPositionalConfig queryDef = true) :
    (∀ raw : RawParsed, resolveValues raw queryDef = .ok (resolveRecord raw queryDef))
    ∧ (∀ raw : RawParsed, assocLookup raw.values k = none →
        assocLookup (resolveRecord raw queryDef) k = some (.bool false))
    ∧ (∀ raw : RawParsed, assocLookup raw.values k = some (.bool true) →
        assocLookup (resolveRecord raw queryDef) k = some (.bool true))
    ∧ (k ≠ "" → k.data.contains '=' = false → k ≠ "__proto__" →
        assocLookup (resolveRecord
          (parseArgsJS (createParseArgsConfig queryDef) [String.mk ('-' :: '-' :: k.data)])
          queryDef) k = some (.bool true))
    ∧ (∀ s c, q.short = some s → s.data = [c] → c ≠ '-' →
        findLongOptionForShort (createParseArgsConfig queryDef) c = k →
        k ≠ "__proto__" →
        assocLookup (resolveRecord
          (parseArgsJS (createParseArgsConfig queryDef) [String.mk ['-', c]])
          queryDef) k = some (.bool true)) := by
  have harr : q.type.isZodArray = false := by rw [hty]; rfl
  have hdflt : q.type.zodDefaultValue = some (.bool false) := by rw [hty]; rfl
  refine ⟨?_, ?_, ?_, ?_, ?_⟩
  · intro raw
    have h := hval
    unfold validPositionalConfig at h
    simp only [Bool.and_eq_true, beq_iff_eq, Bool.not_eq_true'] at h
    obtain ⟨⟨h1, h2⟩, h3⟩ := h
    unfold resolveValues
    rw [if_neg (by simp [h1]), if_neg (by simp [h2]),
      if_neg (fun hcontra => Bool.false_ne_true (h3 ▸ hcontra))]
  · intro raw ha
    exact resolveRecord_named_set raw hnd hlk
      (fun acc => namedStep_absent_default raw acc hpos ha hdflt)
  · intro raw ha
    refine resolveRecord_named_set raw hnd hlk (fun acc => ?_)
    rw [namedStep_present raw acc hpos ha rfl, hty]
    rfl
  · intro hk0 hk1 hk2
    obtain ⟨c, cs, hkd⟩ : ∃ c cs, k.data = c :: cs := by
      cases hkd : k.data with
      | nil =>
        exfalso
        apply hk0
        have hke : k = String.mk k.data := rfl
        rw [hke, hkd]
      | cons c cs => exact ⟨c, cs, rfl⟩
    have hkeq : String.mk (c :: cs) = k := by rw [← hkd]
    rw [hkd]
    have hraw := parseArgs_bare_long_flag hnd (hkeq.symm ▸ hlk) hpos harr
      (hkd ▸ hk1) (hkeq.symm ▸ hk2)
    refine resolveRecord_named_set _ hnd hlk (fun acc => ?_)
    have ha : assocLookup (parseArgsJS (createParseArgsConfig queryDef)
        [String.mk ('-' :: '-' :: c :: cs)]).values k = some (.bool true) := by
      rw [hraw, hkeq]
      simp [assocLookup]
    rw [namedStep_present _ acc hpos ha rfl, hty]
    rfl
  · intro s c hshort hsd hsc hmatch hk2
    have hraw := parseArgs_bare_short_flag hnd hlk hpos harr hsc hmatch hk2
    refine resolveRecord_named_set _ hnd hlk (fun acc => ?_)
    have ha : assocLookup (parseArgsJS (createParseArgsConfig queryDef)
        [String.mk ['-', c]]).values k = some (.bool true) := by
      rw [hraw]
      simp [assocLookup]
    rw [namedStep_present _ acc hpos ha rfl, hty]
    rfl

/-- Witness for C5 at the concrete verbose option: absent token resolves
to false, the bare long flag and the bare short flag both resolve to
true. -/
theorem c5_boolean_default_option_witness :
    (assocLookup c5QueryDef "verbose" =
        some { type := .zDefault .zBoolean (.bool false), short := some "v" }
      ∧ validPositionalConfig c5QueryDef = true)
    ∧ assocLookup (resolveRecord
        (parseArgsJS (createParseArgsConfig c5QueryDef) []) c5QueryDef)
        "verbose" = some (.bool false)
    ∧ assocLookup (resolveRecord
        (parseArgsJS (createParseArgsConfig c5QueryDef)
          [String.mk ('-' :: '-' :: ("verbose").data)]) c5QueryDef)
        "verbose" = some (.bool true)
    ∧ assocLookup (resolveRecord
        (parseArgsJS (createParseArgsConfig c5QueryDef) [String.mk ['-', 'v']]) c5QueryDef)
        "verbose" = some (.bool true) := by
  refine ⟨⟨rfl, rfl⟩, ?_, ?_, ?_⟩
  · exact (c5_boolean_default_option c5QueryDef "verbose" _ (by decide) rfl rfl rfl
      rfl).2.1 (parseArgsJS (createParseArgsConfig c5QueryDef) []) rfl
  · exact (c5_boolean_default_option c5QueryDef "verbose" _ (by decide) rfl rfl rfl
      rfl).2.2.2.1 (by decide) (by decide) (by decide)
  · exact (c5_boolean_default_option c5QueryDef "verbose" _ (by decide) rfl rfl rfl
      rfl).2.2.2.2 "v" 'v' rfl rfl (by decide) (by decide) (by decide)

/-- Inversion of a successful createNestedCommands construction. -/
lemma createNestedCommands_ok {subCommands : List (String × CommandDef)}
    {options : Option NestedCommandOptions} {h : NestedHandler}
    (hok : createNestedCommands subCommands options = .ok h) :
    h.subs = subCommands
    ∧ h.defaultCommand = options.bind (fun o => o.dflt)
    ∧ (∀ d, h.defaultCommand = some d → d ≠ "" →
        (subCommands.map Prod.fst).contains d = true) := by
  cases hd : options.bind (fun o => o.dflt) with
  | none =>
    simp only [createNestedCommands, hd] at hok
    injection hok with h1
    subst h1
    exact ⟨rfl, rfl, fun d hd2 _ => by cases hd2⟩
  | some d =>
    simp only [createNestedCommands, hd] at hok
    by_cases hcond : (decide (d ≠ "") && !((subCommands.map Prod.fst).contains d)) = true
    · rw [if_pos hcond] at hok
      cases hok
    · rw [if_neg hcond] at hok
      injection hok with h1
      subst h1
      refine ⟨rfl, rfl, ?_⟩
      intro d2 hd2 hne
      injection hd2 with hdd
      subst hdd
      have hc2 := eq_false_of_ne_true hcond
      have hdec : decide (d ≠ "") = true := decide_eq_true hne
      rw [hdec, Bool.true_and] at hc2
      simpa using hc2

/-- Claim C6: for non-empty argv without help flags, the dispatcher
consumes argv[0] when it names a declared subcommand and delegates the
rest to that subcommand; otherwise a truthy default command receives the
entire argv; otherwise an unknown-subcommand error carrying the root help
is returned. -/
theorem c6_subcommand_dispatch (subCommands : List (String × CommandDef))
    (options : Option NestedCommandOptions) (h : NestedHandler)
    (a0 : String) (restArgs : List String)
    (hok : createNestedCommands subCommands options = .ok h)
    (hh1 : (a0 :: restArgs).contains "--help" = false)
    (hh2 : (a0 :: restArgs).contains "-h" = false) :
    ((subCommands.map Prod.fst).contains a0 = true →
      ∃ cdef, assocLookup subCommands a0 = some cdef
        ∧ nestedParse h (a0 :: restArgs) = .subcommand a0 (commandParse cdef restArgs))
    ∧ (∀ d, (subCommands.map Prod.fst).contains a0 = false →
        h.defaultCommand = some d → d ≠ "" →
        ∃ cdef, assocLookup subCommands d = some cdef
          ∧ nestedParse h (a0 :: restArgs) = .subcommand d (commandParse cdef (a0 :: restArgs)))
    ∧ ((subCommands.map Prod.fst).contains a0 = false →
        (h.defaultCommand = none ∨ h.defaultCommand = some "") →
        nestedParse h (a0 :: restArgs)
          = .error ("Unknown subcommand: " ++ a0) (rootHelpTextOf h)) := by
  obtain ⟨hsubs, hdef, hvalid⟩ := createNestedCommands_ok hok
  have hguard : ((a0 :: restArgs).contains "-h" || (a0 :: restArgs).contains "--help"
      || (a0 :: restArgs).isEmpty) = false := by
    rw [hh1, hh2]
    rfl
  refine ⟨?_, ?_, ?_⟩
  · intro hcont
    obtain ⟨cdef, hcdef⟩ :=
      exists_assocLookup_of_mem_keys (l := subCommands) (k := a0) (by simpa using hcont)
    refine ⟨cdef, hcdef, ?_⟩
    unfold nestedParse
    rw [hguard, if_neg Bool.false_ne_true]
    show nestedDispatch h a0 restArgs = _
    simp only [nestedDispatch]
    rw [hsubs, if_pos hcont]
    simp [hcdef]
  · intro d hcont hd hne
    obtain ⟨cdef, hcdef⟩ :=
      exists_assocLookup_of_mem_keys (l := subCommands) (k := d)
        (by simpa using hvalid d hd hne)
    refine ⟨cdef, hcdef, ?_⟩
    unfold nestedParse
    rw [hguard, if_neg Bool.false_ne_true]
    show nestedDispatch h a0 restArgs = _
    simp only [nestedDispatch]
    rw [hsubs, hd,
      if_neg (fun hx => Bool.false_ne_true (hcont ▸ hx))]
    simp [hne, hcdef]
  · intro hcont hdnone
    unfold nestedParse
    rw [hguard, if_neg Bool.false_ne_true]
    show nestedDispatch h a0 restArgs = _
    simp only [nestedDispatch]
    rw [hsubs]
    rcases hdnone with hdnone | hdnone
    · rw [hdnone, if_neg (fun hx => Bool.false_ne_true (hcont ▸ hx))]
    · rw [hdnone, if_neg (fun hx => Bool.false_ne_true (hcont ▸ hx))]
      simp

/-- Witness for C6: an argv whose first token is not a subcommand name is
delegated in full to the configured default command. -/
theorem c6_subcommand_dispatch_witness :
    (createNestedCommands c6Subs (some c6Options) = .ok c6Handler
      ∧ (["other"].contains "--help" = false) ∧ (["other"].contains "-h" = false)
      ∧ (c6Subs.map Prod.fst).contains "other" = false
      ∧ c6Handler.defaultCommand = some "run" ∧ "run" ≠ "")
    ∧ ∃ cdef, assocLookup c6Subs "run" = some cdef
        ∧ nestedParse c6Handler ["other"] = .subcommand "run" (commandParse cdef ["other"]) :=
  ⟨⟨rfl, by decide, by decide, by decide, rfl, by decide⟩,
   (c6_subcommand_dispatch c6Subs (some c6Options) c6Handler "other" [] rfl
      (by decide) (by decide)).2.1 "run" (by decide) rfl (by decide)⟩

end Zodcli
